import Mathlib

/-!
Shallow embedding of `src/turing_machine.py`, a single-tape Turing machine
simulator.  States are modelled as `String`s and tape symbols as `Char`s,
exactly as in the Python source (where states are strings and the tape is a
list of one-character strings).  The Python object holds both the immutable
machine definition and the mutable run state in one record; the embedding
mirrors that with a single structure and explicit state passing.

Python sets (`states`, `accept_states`, `reject_states`, alphabets) are
modelled as lists with membership; the source expression
`list(self.reject_states)[0]` (an arbitrary set element) becomes the head of
the list.  The transition dictionary becomes an association list with
first-match lookup (keys are distinct in the examples, so this agrees with
dict lookup).
-/

namespace TMSim

/-- The Turing machine record of the Python class: machine definition plus
mutable run state (`tape`, `head_position`, `current_state`, `steps`). -/
structure TuringMachine where
  states : List String
  alphabet : List Char
  tape_alphabet : List Char
  transitions : List ((String × Char) × (String × Char × Char))
  initial_state : String
  accept_states : List String
  reject_states : List String
  blank_symbol : Char
  tape : List Char
  head_position : Int
  current_state : String
  steps : Nat
deriving DecidableEq

namespace TuringMachine

/-- Association-list lookup for the transition dictionary:
`transitions[(state, symbol)]`, `None` when absent. -/
def findTransition : List ((String × Char) × (String × Char × Char)) →
    String × Char → Option (String × Char × Char)
  | [], _ => none
  | (k, v) :: rest, key => if k = key then some v else findTransition rest key

/-- The `load_input` method: tape is the input characters, or one blank cell
when the input is empty; head, current state and step counter are reset. -/
def load_input (tm : TuringMachine) (input : String) : TuringMachine :=
  { tm with
    tape := if input.toList = [] then [tm.blank_symbol] else input.toList
    head_position := 0
    current_state := tm.initial_state
    steps := 0 }

/-- The boundary-extension block at the top of `step`: a negative head
inserts one blank at the front and resets the head to 0; a head at or past
the end appends one blank. -/
def extendTape (tm : TuringMachine) : TuringMachine :=
  if tm.head_position < 0 then
    { tm with tape := tm.blank_symbol :: tm.tape, head_position := 0 }
  else if tm.head_position ≥ (tm.tape.length : Int) then
    { tm with tape := tm.tape ++ [tm.blank_symbol] }
  else tm

/-- The symbol read by `step` after boundary extension
(`self.tape[self.head_position]`).  After extension the head is a valid
index whenever `head_position ≤ tape.length` held on entry (proved below),
so the `getD` default never fires on states the engine can reach. -/
def readSymbol (tm0 : TuringMachine) : Char :=
  let tm := extendTape tm0
  tm.tape.getD tm.head_position.toNat tm.blank_symbol

/-- The `step` method.  Returns the successor state of the record and the
Python return value (`True` = continuing, `False` = halted). -/
def step (tm0 : TuringMachine) : TuringMachine × Bool :=
  let tm := extendTape tm0
  let current_symbol := tm.tape.getD tm.head_position.toNat tm.blank_symbol
  if tm.current_state ∈ tm.accept_states then (tm, false)
  else if tm.current_state ∈ tm.reject_states then (tm, false)
  else
    match findTransition tm.transitions (tm.current_state, current_symbol) with
    | none =>
        ({ tm with current_state := tm.reject_states.headD "REJECT" }, false)
    | some (new_state, write_symbol, direction) =>
        let tape2 := tm.tape.set tm.head_position.toNat write_symbol
        let head2 :=
          if direction = 'R' then tm.head_position + 1
          else if direction = 'L' then tm.head_position - 1
          else tm.head_position
        ({ tm with tape := tape2, current_state := new_state,
                   head_position := head2, steps := tm.steps + 1 }, true)

/-- N successive calls to `step`, keeping only the record (the Python object
after N `step()` calls). -/
def stepN : Nat → TuringMachine → TuringMachine
  | 0, tm => tm
  | n + 1, tm => stepN n (step tm).1

/-- The `rstrip` of trailing blank symbols used by `get_tape_string`. -/
def rstripBlank (b : Char) (l : List Char) : List Char :=
  (l.reverse.dropWhile (fun c => c == b)).reverse

/-- The `get_tape_string` method: join the tape, strip trailing blanks, and
substitute a single blank when the result is empty. -/
def get_tape_string (tm : TuringMachine) : String :=
  let s := rstripBlank tm.blank_symbol tm.tape
  if s = [] then String.mk [tm.blank_symbol] else String.mk s

/-- The `while self.steps < max_steps` loop of `run`, with explicit fuel.
Each iteration checks the budget, calls `step`, and breaks on a halted
return.  Fuel `max_steps + 1` is enough, because every continuing step
increments `steps` (proved below). -/
def runLoop : Nat → TuringMachine → Nat → TuringMachine
  | 0, tm, _ => tm
  | fuel + 1, tm, max_steps =>
    if tm.steps < max_steps then
      let p := step tm
      if p.2 then runLoop fuel p.1 max_steps else p.1
    else tm

/-- The record state at exit of `run`'s loop, after `load_input`. -/
def finalConfig (tm : TuringMachine) (input : String) (max_steps : Nat) :
    TuringMachine :=
  runLoop (max_steps + 1) (load_input tm input) max_steps

/-- The `run` method (the `verbose` printing is presentation only and
omitted): load the input, loop, and return
`(accepted, steps, final tape rendering)`. -/
def run (tm : TuringMachine) (input : String) (max_steps : Nat) :
    Bool × Nat × String :=
  let t := finalConfig tm input max_steps
  (decide (t.current_state ∈ t.accept_states), t.steps, get_tape_string t)

end TuringMachine

open TuringMachine

/-- The machine constructed by `example_binary_increment` (the demo printing
around it is presentation and omitted). -/
def example_binary_increment : TuringMachine :=
  { states := ["start", "seek_end", "carry", "done", "reject"]
    alphabet := ['0', '1']
    tape_alphabet := ['0', '1', '_']
    transitions :=
      [ (("start", '0'), ("seek_end", '0', 'R'))
      , (("start", '1'), ("seek_end", '1', 'R'))
      , (("start", '_'), ("reject", '_', 'N'))
      , (("seek_end", '0'), ("seek_end", '0', 'R'))
      , (("seek_end", '1'), ("seek_end", '1', 'R'))
      , (("seek_end", '_'), ("carry", '_', 'L'))
      , (("carry", '0'), ("done", '1', 'N'))
      , (("carry", '1'), ("carry", '0', 'L'))
      , (("carry", '_'), ("done", '1', 'N')) ]
    initial_state := "start"
    accept_states := ["done"]
    reject_states := ["reject"]
    blank_symbol := '_'
    tape := []
    head_position := 0
    current_state := "start"
    steps := 0 }

/-- The machine constructed by `example_palindrome_checker`. -/
def example_palindrome_checker : TuringMachine :=
  { states := ["start", "check_0", "check_1", "move_left", "move_right",
               "accept", "reject"]
    alphabet := ['0', '1']
    tape_alphabet := ['0', '1', 'X', '_']
    transitions :=
      [ (("start", '0'), ("check_0", 'X', 'R'))
      , (("start", '1'), ("check_1", 'X', 'R'))
      , (("start", 'X'), ("accept", 'X', 'N'))
      , (("start", '_'), ("accept", '_', 'N'))
      , (("check_0", '0'), ("check_0", '0', 'R'))
      , (("check_0", '1'), ("check_0", '1', 'R'))
      , (("check_0", 'X'), ("check_0", 'X', 'R'))
      , (("check_0", '_'), ("move_left", '_', 'L'))
      , (("check_1", '0'), ("check_1", '0', 'R'))
      , (("check_1", '1'), ("check_1", '1', 'R'))
      , (("check_1", 'X'), ("check_1", 'X', 'R'))
      , (("check_1", '_'), ("move_left", '_', 'L'))
      , (("move_left", '0'), ("move_right", 'X', 'L'))
      , (("move_left", '1'), ("move_right", 'X', 'L'))
      , (("move_left", 'X'), ("move_left", 'X', 'L'))
      , (("move_right", '0'), ("move_right", '0', 'L'))
      , (("move_right", '1'), ("move_right", '1', 'L'))
      , (("move_right", 'X'), ("move_right", 'X', 'L'))
      , (("move_right", '_'), ("start", '_', 'R')) ]
    initial_state := "start"
    accept_states := ["accept"]
    reject_states := ["reject"]
    blank_symbol := '_'
    tape := []
    head_position := 0
    current_state := "start"
    steps := 0 }

/-- Holds when every symbol of `S` has a transition from state `q` in the
table `ts` that stays inside the state pair `{A, B}` and writes a symbol of
`S`.  Used to express that a transition table forms an infinite loop between
the two states `A` and `B` over the closed symbol set `S`. -/
def transLoopsOk (ts : List ((String × Char) × (String × Char × Char)))
    (A B : String) (S : List Char) (q : String) : Bool :=
  S.all fun s =>
    match TuringMachine.findTransition ts (q, s) with
    | some (q', w, _) => (q' == A || q' == B) && S.contains w
    | none => false

/-- A machine sitting in its accepting state with the head one cell to the
left of the tape (as after an accepting transition with a left move at
cell 0). -/
def haltedEdgeMachine : TuringMachine :=
  { states := ["acc"]
    alphabet := ['0']
    tape_alphabet := ['0', '_']
    transitions := []
    initial_state := "acc"
    accept_states := ["acc"]
    reject_states := []
    blank_symbol := '_'
    tape := ['0']
    head_position := -1
    current_state := "acc"
    steps := 0 }

/-- A machine whose state set contains the identifier "REJECT" and whose
rejecting set is empty, about to take the implicit-rejection path. -/
def sentinelClashMachine : TuringMachine :=
  { states := ["q0", "REJECT"]
    alphabet := ['0']
    tape_alphabet := ['0', '_']
    transitions := []
    initial_state := "q0"
    accept_states := []
    reject_states := []
    blank_symbol := '_'
    tape := ['0']
    head_position := 0
    current_state := "q0"
    steps := 0 }

/-- A machine whose transition table loops forever between the two
non-halting states "A" and "B". -/
def loopMachineAB : TuringMachine :=
  { states := ["A", "B"]
    alphabet := ['0']
    tape_alphabet := ['0', '_']
    transitions :=
      [ (("A", '0'), ("B", '0', 'R'))
      , (("A", '_'), ("B", '_', 'R'))
      , (("B", '0'), ("A", '0', 'L'))
      , (("B", '_'), ("A", '_', 'L')) ]
    initial_state := "A"
    accept_states := []
    reject_states := []
    blank_symbol := '_'
    tape := []
    head_position := 0
    current_state := "A"
    steps := 0 }

/-- A machine with an empty transition table and a nonempty rejecting set,
about to take the implicit-rejection path from state "q". -/
def noTransMachine : TuringMachine :=
  { states := ["q", "r"]
    alphabet := ['0']
    tape_alphabet := ['0', '_']
    transitions := []
    initial_state := "q"
    accept_states := []
    reject_states := ["r"]
    blank_symbol := '_'
    tape := ['0']
    head_position := 0
    current_state := "q"
    steps := 0 }

/-! ## Lemmas about `extendTape` -/

namespace TuringMachine

@[simp]
theorem extendTape_current_state (tm : TuringMachine) :
    (extendTape tm).current_state = tm.current_state := by
  unfold extendTape
  split
  · rfl
  · split <;> rfl

@[simp]
theorem extendTape_steps (tm : TuringMachine) :
    (extendTape tm).steps = tm.steps := by
  unfold extendTape
  split
  · rfl
  · split <;> rfl

@[simp]
theorem extendTape_accept_states (tm : TuringMachine) :
    (extendTape tm).accept_states = tm.accept_states := by
  unfold extendTape
  split
  · rfl
  · split <;> rfl

@[simp]
theorem extendTape_reject_states (tm : TuringMachine) :
    (extendTape tm).reject_states = tm.reject_states := by
  unfold extendTape
  split
  · rfl
  · split <;> rfl

@[simp]
theorem extendTape_transitions (tm : TuringMachine) :
    (extendTape tm).transitions = tm.transitions := by
  unfold extendTape
  split
  · rfl
  · split <;> rfl

@[simp]
theorem extendTape_blank_symbol (tm : TuringMachine) :
    (extendTape tm).blank_symbol = tm.blank_symbol := by
  unfold extendTape
  split
  · rfl
  · split <;> rfl

@[simp]
theorem extendTape_initial_state (tm : TuringMachine) :
    (extendTape tm).initial_state = tm.initial_state := by
  unfold extendTape
  split
  · rfl
  · split <;> rfl

@[simp]
theorem extendTape_states (tm : TuringMachine) :
    (extendTape tm).states = tm.states := by
  unfold extendTape
  split
  · rfl
  · split <;> rfl

theorem extendTape_of_inbounds (tm : TuringMachine)
    (h0 : 0 ≤ tm.head_position)
    (h1 : tm.head_position < (tm.tape.length : Int)) :
    extendTape tm = tm := by
  unfold extendTape
  rw [if_neg (by omega), if_neg (by omega)]

theorem extendTape_of_neg (tm : TuringMachine) (h : tm.head_position < 0) :
    extendTape tm =
      { tm with tape := tm.blank_symbol :: tm.tape, head_position := 0 } := by
  unfold extendTape
  rw [if_pos h]

theorem extendTape_of_ge (tm : TuringMachine) (h0 : 0 ≤ tm.head_position)
    (h1 : (tm.tape.length : Int) ≤ tm.head_position) :
    extendTape tm = { tm with tape := tm.tape ++ [tm.blank_symbol] } := by
  unfold extendTape
  rw [if_neg (by omega), if_pos (by omega)]

theorem extendTape_length_le (tm : TuringMachine) :
    (extendTape tm).tape.length ≤ tm.tape.length + 1 := by
  unfold extendTape
  split
  · simp
  · split <;> simp

theorem extendTape_inbounds_after (tm : TuringMachine)
    (h : tm.head_position ≤ (tm.tape.length : Int)) :
    0 ≤ (extendTape tm).head_position ∧
      (extendTape tm).head_position < ((extendTape tm).tape.length : Int) := by
  unfold extendTape
  split
  · simp
  · split
    · simp only [List.length_append, List.length_cons, List.length_nil]
      push_cast
      omega
    · omega

/-! ## Case lemmas for `step` -/

theorem step_halt (tm : TuringMachine)
    (h : tm.current_state ∈ tm.accept_states ∨
         tm.current_state ∈ tm.reject_states) :
    step tm = (extendTape tm, false) := by
  unfold step
  by_cases ha : tm.current_state ∈ tm.accept_states
  · simp [ha]
  · have hr : tm.current_state ∈ tm.reject_states := h.resolve_left ha
    simp [ha, hr]

theorem step_implicit_reject (tm : TuringMachine)
    (h1 : tm.current_state ∉ tm.accept_states)
    (h2 : tm.current_state ∉ tm.reject_states)
    (h3 : findTransition tm.transitions (tm.current_state, readSymbol tm) =
          none) :
    step tm =
      ({ extendTape tm with
         current_state := tm.reject_states.headD "REJECT" }, false) := by
  unfold readSymbol at h3
  unfold step
  simp only [extendTape_current_state, extendTape_accept_states,
    extendTape_reject_states, extendTape_transitions, extendTape_blank_symbol]
  simp only [extendTape_blank_symbol, List.getD_eq_getElem?_getD] at h3
  simp [h1, h2, h3]

theorem step_defined (tm : TuringMachine) (q : String) (w : Char) (d : Char)
    (h1 : tm.current_state ∉ tm.accept_states)
    (h2 : tm.current_state ∉ tm.reject_states)
    (h3 : findTransition tm.transitions (tm.current_state, readSymbol tm) =
          some (q, w, d)) :
    step tm =
      ({ extendTape tm with
         tape := (extendTape tm).tape.set (extendTape tm).head_position.toNat w
         current_state := q
         head_position :=
           if d = 'R' then (extendTape tm).head_position + 1
           else if d = 'L' then (extendTape tm).head_position - 1
           else (extendTape tm).head_position
         steps := tm.steps + 1 }, true) := by
  unfold readSymbol at h3
  unfold step
  simp only [extendTape_current_state, extendTape_accept_states,
    extendTape_reject_states, extendTape_transitions, extendTape_blank_symbol]
  simp only [extendTape_blank_symbol, List.getD_eq_getElem?_getD] at h3
  simp [h1, h2, h3]

/-! ## Derived lemmas for `step`, `stepN`, `load_input` and `runLoop` -/

theorem step_fields (tm : TuringMachine) :
    (step tm).1.accept_states = tm.accept_states ∧
    (step tm).1.reject_states = tm.reject_states ∧
    (step tm).1.transitions = tm.transitions ∧
    (step tm).1.blank_symbol = tm.blank_symbol ∧
    (step tm).1.initial_state = tm.initial_state ∧
    (step tm).1.states = tm.states := by
  by_cases ha : tm.current_state ∈ tm.accept_states
  · rw [step_halt tm (Or.inl ha)]
    simp
  · by_cases hr : tm.current_state ∈ tm.reject_states
    · rw [step_halt tm (Or.inr hr)]
      simp
    · rcases h3 : findTransition tm.transitions (tm.current_state, readSymbol tm)
        with _ | ⟨q, w, d⟩
      · rw [step_implicit_reject tm ha hr h3]
        simp
      · rw [step_defined tm q w d ha hr h3]
        simp

theorem step_true_steps (tm : TuringMachine) (h : (step tm).2 = true) :
    (step tm).1.steps = tm.steps + 1 := by
  by_cases ha : tm.current_state ∈ tm.accept_states
  · rw [step_halt tm (Or.inl ha)] at h
    simp at h
  · by_cases hr : tm.current_state ∈ tm.reject_states
    · rw [step_halt tm (Or.inr hr)] at h
      simp at h
    · rcases h3 : findTransition tm.transitions (tm.current_state, readSymbol tm)
        with _ | ⟨q, w, d⟩
      · rw [step_implicit_reject tm ha hr h3] at h
        simp at h
      · rw [step_defined tm q w d ha hr h3]

theorem step_false_steps (tm : TuringMachine) (h : (step tm).2 = false) :
    (step tm).1.steps = tm.steps := by
  by_cases ha : tm.current_state ∈ tm.accept_states
  · rw [step_halt tm (Or.inl ha)]
    simp
  · by_cases hr : tm.current_state ∈ tm.reject_states
    · rw [step_halt tm (Or.inr hr)]
      simp
    · rcases h3 : findTransition tm.transitions (tm.current_state, readSymbol tm)
        with _ | ⟨q, w, d⟩
      · rw [step_implicit_reject tm ha hr h3]
        simp
      · rw [step_defined tm q w d ha hr h3] at h
        simp at h

theorem step_tape_length_le (tm : TuringMachine) :
    (step tm).1.tape.length ≤ tm.tape.length + 1 := by
  by_cases ha : tm.current_state ∈ tm.accept_states
  · rw [step_halt tm (Or.inl ha)]
    exact extendTape_length_le tm
  · by_cases hr : tm.current_state ∈ tm.reject_states
    · rw [step_halt tm (Or.inr hr)]
      exact extendTape_length_le tm
    · rcases h3 : findTransition tm.transitions (tm.current_state, readSymbol tm)
        with _ | ⟨q, w, d⟩
      · rw [step_implicit_reject tm ha hr h3]
        exact extendTape_length_le tm
      · rw [step_defined tm q w d ha hr h3]
        simpa using extendTape_length_le tm

theorem step_head_le (tm : TuringMachine)
    (h : tm.head_position ≤ (tm.tape.length : Int)) :
    (step tm).1.head_position ≤ ((step tm).1.tape.length : Int) := by
  have hib := extendTape_inbounds_after tm h
  by_cases ha : tm.current_state ∈ tm.accept_states
  · rw [step_halt tm (Or.inl ha)]
    exact le_of_lt hib.2
  · by_cases hr : tm.current_state ∈ tm.reject_states
    · rw [step_halt tm (Or.inr hr)]
      exact le_of_lt hib.2
    · rcases h3 : findTransition tm.transitions (tm.current_state, readSymbol tm)
        with _ | ⟨q, w, d⟩
      · rw [step_implicit_reject tm ha hr h3]
        exact le_of_lt hib.2
      · rw [step_defined tm q w d ha hr h3]
        simp only [List.length_set]
        split
        · omega
        · split <;> omega

theorem stepN_growth (N : Nat) :
    ∀ tm : TuringMachine, tm.head_position ≤ (tm.tape.length : Int) →
      (stepN N tm).tape.length ≤ tm.tape.length + N ∧
      (stepN N tm).head_position ≤ ((stepN N tm).tape.length : Int) := by
  induction N with
  | zero => exact fun tm h => ⟨Nat.le_add_right _ _, h⟩
  | succ n ih =>
      intro tm h
      have h1 := step_tape_length_le tm
      have h2 := step_head_le tm h
      have h3 := ih (step tm).1 h2
      refine ⟨?_, h3.2⟩
      calc (stepN n (step tm).1).tape.length
          ≤ (step tm).1.tape.length + n := h3.1
        _ ≤ tm.tape.length + (n + 1) := by omega

theorem load_input_tape (tm : TuringMachine) (input : String) :
    (load_input tm input).tape =
      if input.toList = [] then [tm.blank_symbol] else input.toList := rfl

theorem runLoop_accept_states (m : Nat) :
    ∀ (fuel : Nat) (c : TuringMachine),
      (runLoop fuel c m).accept_states = c.accept_states := by
  intro fuel
  induction fuel with
  | zero => exact fun c => rfl
  | succ n ih =>
      intro c
      unfold runLoop
      split
      · dsimp only
        split
        · rw [ih]
          exact (step_fields c).1
        · exact (step_fields c).1
      · rfl

theorem runLoop_steps_le (m : Nat) :
    ∀ (fuel : Nat) (c : TuringMachine), c.steps ≤ m →
      (runLoop fuel c m).steps ≤ m := by
  intro fuel
  induction fuel with
  | zero => exact fun c h => h
  | succ n ih =>
      intro c h
      unfold runLoop
      split
      · dsimp only
        split
        · next hlt hb =>
            apply ih
            rw [step_true_steps c hb]
            omega
        · next hlt hb =>
            rw [step_false_steps c (by simpa using hb)]
            omega
      · exact h

theorem stepN_succ (n : Nat) :
    ∀ tm : TuringMachine, stepN (n + 1) tm = (step (stepN n tm)).1 := by
  induction n with
  | zero => exact fun tm => rfl
  | succ k ih => exact fun tm => ih (step tm).1

end TuringMachine

open TuringMachine

/-! ## Claim theorems -/

/-- C9: `load_input` sets the tape to the input's symbols (a single blank
cell when the input is empty), the head position to 0, the current state to
the initial state, and the step counter to 0, for every input string and
every prior run state. -/
theorem load_input_spec (tm : TuringMachine) (input : String) :
    (load_input tm input).tape =
      (if input.toList = [] then [tm.blank_symbol] else input.toList) ∧
    (load_input tm input).head_position = 0 ∧
    (load_input tm input).current_state = tm.initial_state ∧
    (load_input tm input).steps = 0 :=
  ⟨rfl, rfl, rfl, rfl⟩

/-- C3: evaluating the bundled palindrome-checker machine under the default
step budget.  Inputs "1001" and "" are accepted as the claim states, but
input "1101" is ALSO accepted: the `move_left` transitions overwrite the
last unmarked symbol with `X` without comparing it against the symbol
remembered by `check_0`/`check_1`, so the machine never rejects a
non-palindrome.  This contradicts the function's own docstring
("Accepts if palindrome, rejects otherwise") and the demo's
`is_palindrome` self-check. -/
theorem palindrome_scenario_check :
    (run example_palindrome_checker "1001" 10000).1 = true ∧
    (run example_palindrome_checker "" 10000).1 = true ∧
    (run example_palindrome_checker "1101" 10000).1 = true := by
  exact ⟨rfl, rfl, rfl⟩

/-- C6: the bundled binary-increment machine accepts "1011", "1" and "1111"
with final tape renderings "1100", "10" and "10000" respectively. -/
theorem binary_increment_scenario :
    (run example_binary_increment "1011" 10000).1 = true ∧
    (run example_binary_increment "1011" 10000).2.2 = "1100" ∧
    (run example_binary_increment "1" 10000).1 = true ∧
    (run example_binary_increment "1" 10000).2.2 = "10" ∧
    (run example_binary_increment "1111" 10000).1 = true ∧
    (run example_binary_increment "1111" 10000).2.2 = "10000" := by
  exact ⟨rfl, rfl, rfl, rfl, rfl, rfl⟩

/-- C1 counterexample: a machine whose current state is accepting but whose
head sits one cell left of the tape (as after an accepting transition that
moved left from cell 0).  The boundary-extension block runs before the
halting check, so this further `step` call returns halted yet mutates the
tape by prepending a blank cell — refuting "does not mutate the tape". -/
theorem halting_step_mutates_tape_cx :
    haltedEdgeMachine.current_state ∈ haltedEdgeMachine.accept_states ∧
    (step haltedEdgeMachine).2 = false ∧
    (step haltedEdgeMachine).1.tape ≠ haltedEdgeMachine.tape := by
  decide

/-- C1 amended: once the current state is in the accepting or rejecting set,
every further `step` call (on a run state whose head is at most the tape
length, as holds for every state the engine reaches) returns halted (False)
and leaves the step counter and current state unchanged; the whole run state
is unchanged when the head is inside the tape bounds, while an out-of-bounds
head still triggers the boundary extension, adding exactly one blank cell
(front, resetting a negative head to 0, or back); all further calls after
the first leave the record fixed. -/
theorem halting_absorption_amended (tm : TuringMachine)
    (hwf : tm.head_position ≤ (tm.tape.length : Int))
    (h : tm.current_state ∈ tm.accept_states ∨
         tm.current_state ∈ tm.reject_states) :
    (step tm).2 = false ∧
    (step tm).1.steps = tm.steps ∧
    (step tm).1.current_state = tm.current_state ∧
    (0 ≤ tm.head_position → tm.head_position < (tm.tape.length : Int) →
      (step tm).1 = tm) ∧
    (tm.head_position < 0 →
      (step tm).1.tape = tm.blank_symbol :: tm.tape ∧
      (step tm).1.head_position = 0) ∧
    ((tm.tape.length : Int) ≤ tm.head_position →
      (step tm).1.tape = tm.tape ++ [tm.blank_symbol] ∧
      (step tm).1.head_position = tm.head_position) ∧
    (∀ N, 1 ≤ N → stepN N tm = (step tm).1) := by
  have hs := step_halt tm h
  have hidem : extendTape (extendTape tm) = extendTape tm := by
    obtain ⟨h0, h1⟩ := extendTape_inbounds_after tm hwf
    exact extendTape_of_inbounds _ h0 h1
  have habs : step (extendTape tm) = (extendTape tm, false) := by
    have hcur : (extendTape tm).current_state ∈ (extendTape tm).accept_states ∨
        (extendTape tm).current_state ∈ (extendTape tm).reject_states := by
      rw [extendTape_current_state, extendTape_accept_states,
        extendTape_reject_states]
      exact h
    rw [step_halt _ hcur, hidem]
  rw [hs]
  refine ⟨rfl, extendTape_steps tm, extendTape_current_state tm, ?_, ?_, ?_, ?_⟩
  · exact fun h0 h1 => extendTape_of_inbounds tm h0 h1
  · intro hneg
    rw [extendTape_of_neg tm hneg]
    exact ⟨rfl, rfl⟩
  · intro hge
    have h0 : 0 ≤ tm.head_position := by
      have : (0 : Int) ≤ (tm.tape.length : Int) := by omega
      omega
    rw [extendTape_of_ge tm h0 hge]
    exact ⟨rfl, rfl⟩
  · intro N hN
    induction N with
    | zero => omega
    | succ n ih =>
        rcases Nat.eq_or_lt_of_le hN with h1 | h1
        · rw [← h1]
          show stepN 0 (step tm).1 = (extendTape tm, false).1
          rw [hs]
          rfl
        · have hn : 1 ≤ n := by omega
          rw [stepN_succ n tm, ih hn]
          show (step (extendTape tm, false).1).1 = (extendTape tm, false).1
          rw [show (extendTape tm, false).1 = extendTape tm from rfl, habs]

/-- C1 witness: the amended halting-absorption theorem applied to the
concrete machine of the counterexample. -/
theorem halting_absorption_amended_witness :
    (step haltedEdgeMachine).2 = false ∧
    (step haltedEdgeMachine).1.steps = haltedEdgeMachine.steps ∧
    (step haltedEdgeMachine).1.current_state =
      haltedEdgeMachine.current_state := by
  have h := halting_absorption_amended haltedEdgeMachine (by decide)
    (by decide)
  exact ⟨h.1, h.2.1, h.2.2.1⟩

/-- C2: on a run state in neither halting set whose (state, symbol under the
head after boundary extension) pair is absent from the transition mapping,
`step` returns halted (False), sets the current state to a member of the
rejecting set (the sentinel "REJECT" when that set is empty), and leaves
the step counter unchanged.  The head bound `hwf` holds for every state the
engine reaches (see `tape_growth_bound`). -/
theorem implicit_rejection_spec (tm : TuringMachine)
    (_hwf : tm.head_position ≤ (tm.tape.length : Int))
    (h1 : tm.current_state ∉ tm.accept_states)
    (h2 : tm.current_state ∉ tm.reject_states)
    (h3 : findTransition tm.transitions (tm.current_state, readSymbol tm) =
          none) :
    (step tm).2 = false ∧
    (step tm).1.steps = tm.steps ∧
    (tm.reject_states ≠ [] → (step tm).1.current_state ∈ tm.reject_states) ∧
    (tm.reject_states = [] → (step tm).1.current_state = "REJECT") := by
  rw [step_implicit_reject tm h1 h2 h3]
  refine ⟨rfl, by simp, ?_, ?_⟩
  · intro hne
    show tm.reject_states.headD "REJECT" ∈ tm.reject_states
    cases hl : tm.reject_states with
    | nil => exact absurd hl hne
    | cons a l => simp [List.headD]
  · intro he
    show tm.reject_states.headD "REJECT" = "REJECT"
    rw [he]
    rfl

/-- C2 witness: the implicit-rejection theorem applied to a machine with an
empty transition table and rejecting set {"r"}. -/
theorem implicit_rejection_spec_witness :
    (step noTransMachine).2 = false ∧
    (step noTransMachine).1.steps = noTransMachine.steps ∧
    (step noTransMachine).1.current_state ∈ noTransMachine.reject_states := by
  have h := implicit_rejection_spec noTransMachine (by decide) (by decide)
    (by decide) (by decide)
  exact ⟨h.1, h.2.1, h.2.2.1 (by decide)⟩

/-- C7 counterexample: a machine whose state set contains the identifier
"REJECT" and whose rejecting set is empty.  The implicit-rejection path
sets the current state to the literal string "REJECT", which here IS a
member of the machine's state set — refuting "not a member of the state
set". -/
theorem reject_sentinel_in_states_cx :
    sentinelClashMachine.reject_states = [] ∧
    (step sentinelClashMachine).2 = false ∧
    (step sentinelClashMachine).1.current_state = "REJECT" ∧
    "REJECT" ∈ sentinelClashMachine.states := by
  decide

/-- C7 amended: when the rejecting set is empty and the implicit-rejection
path is taken, the current state is set to the fixed literal identifier
"REJECT"; the code does not check whether that identifier belongs to the
machine's state set. -/
theorem reject_sentinel_value (tm : TuringMachine)
    (_hwf : tm.head_position ≤ (tm.tape.length : Int))
    (hempty : tm.reject_states = [])
    (h1 : tm.current_state ∉ tm.accept_states)
    (h2 : tm.current_state ∉ tm.reject_states)
    (h3 : findTransition tm.transitions (tm.current_state, readSymbol tm) =
          none) :
    (step tm).2 = false ∧ (step tm).1.current_state = "REJECT" := by
  rw [step_implicit_reject tm h1 h2 h3]
  refine ⟨rfl, ?_⟩
  show tm.reject_states.headD "REJECT" = "REJECT"
  rw [hempty]
  rfl

/-- C7 witness: the amended sentinel theorem applied to the machine of the
counterexample. -/
theorem reject_sentinel_value_witness :
    (step sentinelClashMachine).2 = false ∧
    (step sentinelClashMachine).1.current_state = "REJECT" :=
  reject_sentinel_value sentinelClashMachine (by decide) (by decide)
    (by decide) (by decide) (by decide)

/-- C10: on the implicit-rejection path `step` changes only the current
state: it returns halted (False) with the step counter unchanged, and the
tape and head position are exactly those produced by the boundary-extension
check at the start of the call — unchanged when the head was in bounds, one
blank prepended with the head reset to 0 when the head was negative, one
blank appended when the head was at or past the end. -/
theorem implicit_rejection_frame (tm : TuringMachine)
    (hwf : tm.head_position ≤ (tm.tape.length : Int))
    (h1 : tm.current_state ∉ tm.accept_states)
    (h2 : tm.current_state ∉ tm.reject_states)
    (h3 : findTransition tm.transitions (tm.current_state, readSymbol tm) =
          none) :
    (step tm).2 = false ∧
    (step tm).1.steps = tm.steps ∧
    (step tm).1.tape = (extendTape tm).tape ∧
    (step tm).1.head_position = (extendTape tm).head_position ∧
    (0 ≤ tm.head_position → tm.head_position < (tm.tape.length : Int) →
      extendTape tm = tm) ∧
    (tm.head_position < 0 →
      (extendTape tm).tape = tm.blank_symbol :: tm.tape ∧
      (extendTape tm).head_position = 0) ∧
    ((tm.tape.length : Int) ≤ tm.head_position →
      (extendTape tm).tape = tm.tape ++ [tm.blank_symbol] ∧
      (extendTape tm).head_position = tm.head_position) := by
  rw [step_implicit_reject tm h1 h2 h3]
  refine ⟨rfl, by simp, rfl, rfl, extendTape_of_inbounds tm, ?_, ?_⟩
  · intro hneg
    rw [extendTape_of_neg tm hneg]
    exact ⟨rfl, rfl⟩
  · intro hge
    have h0 : 0 ≤ tm.head_position := by
      have : (0 : Int) ≤ (tm.tape.length : Int) := by omega
      omega
    rw [extendTape_of_ge tm h0 hge]
    exact ⟨rfl, rfl⟩

/-- C10 witness: the implicit-rejection frame theorem applied to a concrete
machine with an empty transition table. -/
theorem implicit_rejection_frame_witness :
    (step noTransMachine).2 = false ∧
    (step noTransMachine).1.steps = noTransMachine.steps ∧
    (step noTransMachine).1.tape = (extendTape noTransMachine).tape ∧
    (step noTransMachine).1.head_position =
      (extendTape noTransMachine).head_position := by
  have h := implicit_rejection_frame noTransMachine (by decide) (by decide)
    (by decide) (by decide)
  exact ⟨h.1, h.2.1, h.2.2.1, h.2.2.2.1⟩

/-- C8: starting from any loaded input, after N `step` calls the tape length
is at most the post-load tape length plus N, and the head position of the
reached state is a valid index into the tape immediately after the
boundary-extension check of the next call. -/
theorem tape_growth_bound (tm : TuringMachine) (input : String) (N : Nat) :
    (stepN N (load_input tm input)).tape.length ≤
      (load_input tm input).tape.length + N ∧
    0 ≤ (extendTape (stepN N (load_input tm input))).head_position ∧
    (extendTape (stepN N (load_input tm input))).head_position <
      ((extendTape (stepN N (load_input tm input))).tape.length : Int) := by
  have h0 : (load_input tm input).head_position ≤
      ((load_input tm input).tape.length : Int) := by
    have he : (load_input tm input).head_position = 0 := rfl
    rw [he]
    omega
  have hg := stepN_growth N (load_input tm input) h0
  exact ⟨hg.1, extendTape_inbounds_after _ hg.2⟩

theorem transLoopsOk_lookup
    (ts : List ((String × Char) × (String × Char × Char)))
    (A B : String) (S : List Char) (q : String) (s : Char)
    (hq : transLoopsOk ts A B S q = true) (hs : s ∈ S) :
    ∃ q' w d, findTransition ts (q, s) = some (q', w, d) ∧
      (q' = A ∨ q' = B) ∧ w ∈ S := by
  unfold transLoopsOk at hq
  have hall := List.all_eq_true.mp hq s hs
  rcases h3 : findTransition ts (q, s) with _ | ⟨q', w, d⟩
  · rw [h3] at hall
    simp at hall
  · rw [h3] at hall
    simp only [Bool.and_eq_true, Bool.or_eq_true, beq_iff_eq] at hall
    refine ⟨q', w, d, rfl, hall.1, ?_⟩
    simpa using hall.2

theorem loop_step_advances (A B : String) (S : List Char) (c : TuringMachine)
    (hAa : A ∉ c.accept_states) (hAr : A ∉ c.reject_states)
    (hBa : B ∉ c.accept_states) (hBr : B ∉ c.reject_states)
    (hblank : c.blank_symbol ∈ S)
    (hA : transLoopsOk c.transitions A B S A = true)
    (hB : transLoopsOk c.transitions A B S B = true)
    (hcur : c.current_state = A ∨ c.current_state = B)
    (htape : ∀ x ∈ c.tape, x ∈ S) :
    (step c).2 = true ∧
    (step c).1.steps = c.steps + 1 ∧
    ((step c).1.current_state = A ∨ (step c).1.current_state = B) ∧
    (∀ x ∈ (step c).1.tape, x ∈ S) := by
  have h1 : c.current_state ∉ c.accept_states := by
    rcases hcur with h | h <;> rw [h] <;> assumption
  have h2 : c.current_state ∉ c.reject_states := by
    rcases hcur with h | h <;> rw [h] <;> assumption
  have htape' : ∀ x ∈ (extendTape c).tape, x ∈ S := by
    unfold extendTape
    split
    · intro x hx
      rcases List.mem_cons.mp hx with h | h
      · rw [h]; exact hblank
      · exact htape x h
    · split
      · intro x hx
        rcases List.mem_append.mp hx with h | h
        · exact htape x h
        · rw [List.mem_singleton.mp h]; exact hblank
      · exact htape
  have hread : readSymbol c ∈ S := by
    unfold readSymbol
    dsimp only
    by_cases hn : (extendTape c).head_position.toNat < (extendTape c).tape.length
    · rw [List.getD_eq_getElem _ _ hn]
      exact htape' _ (List.getElem_mem hn)
    · rw [List.getD_eq_default _ _ (le_of_not_lt hn)]
      rw [extendTape_blank_symbol]
      exact hblank
  obtain ⟨q', w, d, h3, hq', hw⟩ :
      ∃ q' w d, findTransition c.transitions (c.current_state, readSymbol c) =
        some (q', w, d) ∧ (q' = A ∨ q' = B) ∧ w ∈ S := by
    rcases hcur with h | h
    · rw [h]; exact transLoopsOk_lookup _ A B S A _ hA hread
    · rw [h]; exact transLoopsOk_lookup _ A B S B _ hB hread
  rw [step_defined c q' w d h1 h2 h3]
  refine ⟨rfl, rfl, hq', ?_⟩
  intro x hx
  rcases List.mem_or_eq_of_mem_set hx with h | h
  · exact htape' x h
  · rw [h]; exact hw

theorem loop_runLoop_exhausts (A B : String) (S : List Char) (m : Nat) :
    ∀ (fuel : Nat) (c : TuringMachine),
      A ∉ c.accept_states → A ∉ c.reject_states →
      B ∉ c.accept_states → B ∉ c.reject_states →
      c.blank_symbol ∈ S →
      transLoopsOk c.transitions A B S A = true →
      transLoopsOk c.transitions A B S B = true →
      (c.current_state = A ∨ c.current_state = B) →
      (∀ x ∈ c.tape, x ∈ S) →
      c.steps ≤ m → m + 1 ≤ fuel + c.steps →
      (runLoop fuel c m).steps = m ∧
      ((runLoop fuel c m).current_state = A ∨
       (runLoop fuel c m).current_state = B) ∧
      (runLoop fuel c m).accept_states = c.accept_states := by
  intro fuel
  induction fuel with
  | zero => intro c _ _ _ _ _ _ _ _ _ hs hf; omega
  | succ n ih =>
      intro c hAa hAr hBa hBr hblank hA hB hcur htape hsle hfuel
      have hadv := loop_step_advances A B S c hAa hAr hBa hBr hblank hA hB
        hcur htape
      have hfields := step_fields c
      unfold runLoop
      by_cases hlt : c.steps < m
      · rw [if_pos hlt]
        dsimp only
        rw [if_pos hadv.1]
        have hrec := ih (step c).1
          (hfields.1 ▸ hAa) (hfields.2.1 ▸ hAr)
          (hfields.1 ▸ hBa) (hfields.2.1 ▸ hBr)
          (hfields.2.2.2.1 ▸ hblank)
          (hfields.2.2.1 ▸ hA) (hfields.2.2.1 ▸ hB)
          hadv.2.2.1 hadv.2.2.2
          (by rw [hadv.2.1]; omega) (by rw [hadv.2.1]; omega)
        refine ⟨hrec.1, hrec.2.1, ?_⟩
        rw [hrec.2.2, hfields.1]
      · rw [if_neg hlt]
        exact ⟨by omega, hcur, rfl⟩

/-- C4: `run` returns the triple (accepted, steps, final tape rendering)
of the state at loop exit, where accepted is true exactly when that state's
current state belongs to the accepting set; the step count never exceeds
`max_steps`, and a loop exit in a non-accepting state — in particular a run
that exhausted the budget without halting — yields accepted = false,
indistinguishable from a genuine rejection in the return value. -/
theorem run_contract (tm : TuringMachine) (input : String) (m : Nat) :
    ((run tm input m).1 = true ↔
      (finalConfig tm input m).current_state ∈ tm.accept_states) ∧
    (run tm input m).2.1 = (finalConfig tm input m).steps ∧
    (run tm input m).2.2 = get_tape_string (finalConfig tm input m) ∧
    (finalConfig tm input m).steps ≤ m ∧
    ((finalConfig tm input m).current_state ∉ tm.accept_states →
      (run tm input m).1 = false) := by
  have hacc : (finalConfig tm input m).accept_states = tm.accept_states := by
    unfold finalConfig
    rw [runLoop_accept_states]
    rfl
  have h1 : (run tm input m).1 =
      decide ((finalConfig tm input m).current_state ∈
        (finalConfig tm input m).accept_states) := rfl
  refine ⟨?_, rfl, rfl, ?_, ?_⟩
  · rw [h1, hacc]
    exact decide_eq_true_iff
  · unfold finalConfig
    apply runLoop_steps_le
    show (0 : Nat) ≤ m
    omega
  · intro hnot
    rw [h1, hacc]
    simpa using hnot

/-- C5: for every machine whose transition mapping loops forever between two
non-halting states A and B — every transition from A or B on any symbol of a
closed symbol set S (containing the blank and the input's symbols) stays in
{A, B} and writes into S — and whose initial state lies in {A, B}, `run`
with max_steps = 100 returns exactly steps = 100 and accepted = false. -/
theorem two_state_loop_budget (tm : TuringMachine) (A B : String)
    (S : List Char) (input : String)
    (_hAB : A ≠ B)
    (hAa : A ∉ tm.accept_states) (hAr : A ∉ tm.reject_states)
    (hBa : B ∉ tm.accept_states) (hBr : B ∉ tm.reject_states)
    (hinit : tm.initial_state = A ∨ tm.initial_state = B)
    (hblank : tm.blank_symbol ∈ S)
    (hA : transLoopsOk tm.transitions A B S A = true)
    (hB : transLoopsOk tm.transitions A B S B = true)
    (hinput : ∀ ch ∈ input.toList, ch ∈ S) :
    (run tm input 100).2.1 = 100 ∧ (run tm input 100).1 = false := by
  have htape0 : ∀ x ∈ (load_input tm input).tape, x ∈ S := by
    rw [load_input_tape]
    by_cases he : input.toList = []
    · rw [if_pos he]
      intro x hx
      rw [List.mem_singleton.mp hx]
      exact hblank
    · rw [if_neg he]
      exact hinput
  have hloop := loop_runLoop_exhausts A B S 100 (100 + 1)
    (load_input tm input) hAa hAr hBa hBr hblank hA hB hinit htape0
    (Nat.zero_le 100) (Nat.le_add_right (100 + 1) _)
  constructor
  · show (finalConfig tm input 100).steps = 100
    unfold finalConfig
    exact hloop.1
  · show decide ((finalConfig tm input 100).current_state ∈
        (finalConfig tm input 100).accept_states) = false
    rw [decide_eq_false_iff_not]
    unfold finalConfig
    intro hmem
    rw [hloop.2.2] at hmem
    rcases hloop.2.1 with hf | hf
    · rw [hf] at hmem
      exact hAa hmem
    · rw [hf] at hmem
      exact hBa hmem

/-- C5 witness: the step-budget theorem applied to the concrete two-state
loop machine `loopMachineAB` on input "0". -/
theorem two_state_loop_budget_witness :
    (run loopMachineAB "0" 100).2.1 = 100 ∧
    (run loopMachineAB "0" 100).1 = false :=
  two_state_loop_budget loopMachineAB "A" "B" ['0', '_'] "0"
    (by decide) (by decide) (by decide) (by decide) (by decide)
    (by decide) (by decide) (by decide) (by decide) (by decide)

/-- C4 witness: the run contract applied to the binary-increment machine on
input "1" with a budget of 10 steps. -/
theorem run_contract_witness :
    ((run example_binary_increment "1" 10).1 = true ↔
      (finalConfig example_binary_increment "1" 10).current_state ∈
        example_binary_increment.accept_states) ∧
    (run example_binary_increment "1" 10).2.1 =
      (finalConfig example_binary_increment "1" 10).steps ∧
    (run example_binary_increment "1" 10).2.2 =
      get_tape_string (finalConfig example_binary_increment "1" 10) ∧
    (finalConfig example_binary_increment "1" 10).steps ≤ 10 ∧
    ((finalConfig example_binary_increment "1" 10).current_state ∉
        example_binary_increment.accept_states →
      (run example_binary_increment "1" 10).1 = false) :=
  run_contract example_binary_increment "1" 10

end TMSim
